import Mathlib

/-!
# Verification of the storage/concurrency core (buffer pool, LRU replacer,
# B+tree, lock manager)

Shallow embedding of the C++ sources under `src/`:
  * `src/buffer/lru_replacer.cpp`        → namespace `LRU`
  * `src/buffer/buffer_pool_manager.cpp` → namespace `BPM`
  * `src/concurrency/lock_manager.cpp`   → namespace `LM`
  * `src/storage/index/b_plus_tree.cpp`,
    `src/storage/page/b_plus_tree_internal_page.cpp`,
    `src/storage/index/index_iterator.cpp` → namespace `BPT`

C++ `std::list` state is modelled by Lean `List`; machine integers
(`page_id_t`, `frame_id_t`, `txn_id_t` are 32-bit signed ints that never
approach overflow in the modelled scenarios) are modelled by `Int`;
`std::unordered_map` page tables are modelled by association lists;
calls into the `DiskManager` are recorded in an explicit event trace.
-/

namespace LRU

/-- `INVALID_PAGE_ID` from `src/include/common/config.h` (used throughout). -/
def INVALID_PAGE_ID : Int := -1

/-- State of `LRUReplacer` (`src/buffer/lru_replacer.cpp`).
`lruList` models the `std::list<frame_id_t> lruList` member: the head of the
Lean list is the front of the C++ list (pushed by `push_front` in `Unpin`),
the last element is the back (popped by `Victim`).  The `lruMap` member of the
C++ class is a redundant index into the list (frame id → iterator) kept only
for O(1) lookup, so membership tests `lruMap.count(f)` are modelled by
membership in `lruList`. -/
structure LRUReplacer where
  capacity : Nat
  lruList : List Int
deriving Repr, DecidableEq

/-- `LRUReplacer::Size` — `return lruList.size();`. -/
def LRUReplacer.Size (r : LRUReplacer) : Nat := r.lruList.length

/-- `LRUReplacer::Victim` — on empty list return `false`; otherwise return the
back of the list, pop it, and erase it from the map. -/
def LRUReplacer.Victim (r : LRUReplacer) : Option Int × LRUReplacer :=
  match r.lruList.getLast? with
  | none => (none, r)
  | some f => (some f, { r with lruList := r.lruList.dropLast })

/-- `LRUReplacer::Pin` — if the frame is absent, no-op; otherwise erase it. -/
def LRUReplacer.Pin (r : LRUReplacer) (frame_id : Int) : LRUReplacer :=
  if r.lruList.contains frame_id then
    { r with lruList := r.lruList.erase frame_id }
  else r

/-- `LRUReplacer::Unpin` — if the frame is already present, no-op.  Otherwise,
if `Size() >= capacity`, pop the FRONT of the list (`lruList.pop_front()`),
then push the frame at the front. -/
def LRUReplacer.Unpin (r : LRUReplacer) (frame_id : Int) : LRUReplacer :=
  if r.lruList.contains frame_id then r
  else
    let l := if r.Size ≥ r.capacity then r.lruList.drop 1 else r.lruList
    { r with lruList := frame_id :: l }

end LRU

namespace BPM

open LRU

/-- One disk-manager call, recorded in program order
(`DiskManager::ReadPage/WritePage/AllocatePage/DeallocatePage`). -/
inductive DiskOp where
  | read : Int → DiskOp
  | write : Int → DiskOp
  | alloc : Int → DiskOp
  | dealloc : Int → DiskOp
deriving Repr, DecidableEq

/-- In-pool `Page` object (`src/include/storage/page/page.h`): page id,
pin count and dirty flag.  The raw byte buffer is irrelevant to the claims
and is elided; the data movement it would carry is visible in the disk
trace instead. -/
structure Page where
  page_id : Int := INVALID_PAGE_ID
  pin_count : Int := 0
  is_dirty : Bool := false
deriving Repr, DecidableEq

/-- State of `BufferPoolManager` (`src/buffer/buffer_pool_manager.cpp`):
frames `pages_`, page table `page_table_`, free list `free_list_`, the
replacer, the disk manager's allocation cursor (`AllocatePage` returns
consecutive fresh ids), and the trace of disk calls made so far. -/
structure BufferPoolManager where
  pool_size : Nat
  pages : List Page
  page_table : List (Int × Int)
  free_list : List Int
  replacer : LRUReplacer
  next_disk_page : Int
  trace : List DiskOp
deriving Repr, DecidableEq

/-- Association-list lookup modelling `page_table_.count` / `operator[]`. -/
def ptLookup (pt : List (Int × Int)) (pid : Int) : Option Int :=
  match pt with
  | [] => none
  | (p, f) :: rest => if p = pid then some f else ptLookup rest pid

/-- `page_table_.erase(page_id)`. -/
def ptErase (pt : List (Int × Int)) (pid : Int) : List (Int × Int) :=
  match pt with
  | [] => []
  | (p, f) :: rest => if p = pid then rest else (p, f) :: ptErase rest pid

/-- Reverse lookup in the page table: the linear scan in `FindReplace`
looking for the page id currently mapped to the victim frame. -/
def ptFindByFrame (pt : List (Int × Int)) (fid : Int) : Option Int :=
  match pt with
  | [] => none
  | (p, f) :: rest => if f = fid then some p else ptFindByFrame rest fid

/-- `pages_[frame_id]` (total: out-of-range reads return a default page,
never exercised on well-formed states). -/
def BufferPoolManager.pageAt (s : BufferPoolManager) (fid : Int) : Page :=
  (s.pages.getD fid.toNat {})

/-- Update `pages_[frame_id]` in place. -/
def BufferPoolManager.setPage (s : BufferPoolManager) (fid : Int) (p : Page) :
    BufferPoolManager :=
  { s with pages := s.pages.set fid.toNat p }

/-- `BufferPoolManager::FindReplace` — drain the free list first; otherwise ask
the replacer for a victim; if the victim frame is currently mapped, write it
back when dirty and erase the mapping.  Returns the chosen frame id. -/
def BufferPoolManager.FindReplace (s : BufferPoolManager) :
    Option Int × BufferPoolManager :=
  match s.free_list with
  | fid :: rest => (some fid, { s with free_list := rest })
  | [] =>
    match s.replacer.Victim with
    | (none, r) => (none, { s with replacer := r })
    | (some fid, r) =>
      let s := { s with replacer := r }
      match ptFindByFrame s.page_table fid with
      | none => (some fid, s)
      | some replacePageId =>
        let replacePage := s.pageAt fid
        let s :=
          if replacePage.is_dirty then
            { s with trace := s.trace ++ [DiskOp.write replacePageId] }
          else s
        (some fid, { s with page_table := ptErase s.page_table replacePageId })

/-- `BufferPoolManager::FetchPageImpl`.  Returns the fetched frame id (the C++
function returns `Page*`, i.e. `&pages_[frame_id]`). -/
def BufferPoolManager.FetchPageImpl (s : BufferPoolManager) (page_id : Int) :
    Option Int × BufferPoolManager :=
  match ptLookup s.page_table page_id with
  | some frame_id =>
    let page := s.pageAt frame_id
    let s := s.setPage frame_id { page with pin_count := page.pin_count + 1 }
    (some frame_id, { s with replacer := s.replacer.Pin frame_id })
  | none =>
    match s.FindReplace with
    | (none, s) => (none, s)
    | (some frame_id, s) =>
      let s := { s with trace := s.trace ++ [DiskOp.read page_id] }
      let page := s.pageAt frame_id
      let s := s.setPage frame_id
        { page with page_id := page_id, pin_count := page.pin_count + 1,
                    is_dirty := false }
      let s := { s with replacer := s.replacer.Pin frame_id }
      (some frame_id, { s with page_table := s.page_table ++ [(page_id, frame_id)] })

/-- `BufferPoolManager::UnpinPageImpl` — return `false` if the page is not
mapped or its pin count is zero; otherwise decrement the pin count and, on
reaching zero, `replacer_->Unpin(frame_id)`.  NOTE (faithful to the source):
the body never touches `is_dirty_`; the `is_dirty` argument is ignored. -/
def BufferPoolManager.UnpinPageImpl (s : BufferPoolManager) (page_id : Int)
    (_is_dirty : Bool) : Bool × BufferPoolManager :=
  match ptLookup s.page_table page_id with
  | none => (false, s)
  | some frame_id =>
    let page := s.pageAt frame_id
    if page.pin_count = 0 then (false, s)
    else
      let s := s.setPage frame_id { page with pin_count := page.pin_count - 1 }
      if page.pin_count - 1 = 0 then
        (true, { s with replacer := s.replacer.Unpin frame_id })
      else (true, s)

/-- `BufferPoolManager::FlushPageImpl` — if unmapped return `false`; otherwise
clear the dirty bit and `WritePage`. -/
def BufferPoolManager.FlushPageImpl (s : BufferPoolManager) (page_id : Int) :
    Bool × BufferPoolManager :=
  match ptLookup s.page_table page_id with
  | none => (false, s)
  | some frame_id =>
    let page := s.pageAt frame_id
    let s := s.setPage frame_id { page with is_dirty := false }
    (true, { s with trace := s.trace ++ [DiskOp.write page_id] })

/-- `BufferPoolManager::NewPageImpl` — call `AllocatePage` first, then look
for a frame; on failure return null (the allocated id is dropped); on success
install the page pinned and dirty.  Returns `(allocated page id, frame id)`
on success (`*page_id` output parameter plus the returned `Page*`). -/
def BufferPoolManager.NewPageImpl (s : BufferPoolManager) :
    Option (Int × Int) × BufferPoolManager :=
  let newPageId := s.next_disk_page
  let s := { s with next_disk_page := s.next_disk_page + 1,
                    trace := s.trace ++ [DiskOp.alloc newPageId] }
  match s.FindReplace with
  | (none, s) => (none, s)
  | (some frame_id, s) =>
    let page := s.pageAt frame_id
    let s := s.setPage frame_id
      { page with page_id := newPageId, pin_count := page.pin_count + 1,
                  is_dirty := true }
    let s := { s with replacer := s.replacer.Pin frame_id }
    (some (newPageId, frame_id),
     { s with page_table := s.page_table ++ [(newPageId, frame_id)] })

/-- `BufferPoolManager::DeletePageImpl` — unmapped: deallocate on disk, return
`true`.  Mapped with positive pin count: return `false`.  Otherwise erase the
mapping, deallocate on disk, push the frame onto the free list, return
`true`. -/
def BufferPoolManager.DeletePageImpl (s : BufferPoolManager) (page_id : Int) :
    Bool × BufferPoolManager :=
  match ptLookup s.page_table page_id with
  | none => (true, { s with trace := s.trace ++ [DiskOp.dealloc page_id] })
  | some frame_id =>
    let page := s.pageAt frame_id
    if page.pin_count > 0 then (false, s)
    else
      (true, { s with page_table := ptErase s.page_table page_id,
                      trace := s.trace ++ [DiskOp.dealloc page_id],
                      free_list := s.free_list ++ [frame_id] })

/-- `BufferPoolManager::FlushAllPagesImpl` — the body in the source is empty
(`// You can do it!`): the function does nothing. -/
def BufferPoolManager.FlushAllPagesImpl (s : BufferPoolManager) :
    BufferPoolManager := s

end BPM

namespace BPM

/-- Key-membership helper: a key absent from the key column is not found. -/
theorem ptLookup_eq_none_of_not_mem (pt : List (Int × Int)) (pid : Int)
    (h : pid ∉ pt.map Prod.fst) : ptLookup pt pid = none := by
  induction pt with
  | nil => rfl
  | cons hd tl ih =>
    obtain ⟨p, f⟩ := hd
    simp only [List.map_cons, List.mem_cons] at h
    push_neg at h
    simp only [ptLookup, if_neg (Ne.symm h.1)]
    exact ih h.2

/-- Erasing a key from a duplicate-free page table removes its mapping. -/
theorem ptLookup_ptErase_self (pt : List (Int × Int)) (pid : Int)
    (h : (pt.map Prod.fst).Nodup) : ptLookup (ptErase pt pid) pid = none := by
  induction pt with
  | nil => rfl
  | cons hd tl ih =>
    obtain ⟨p, f⟩ := hd
    simp only [List.map_cons, List.nodup_cons] at h
    by_cases hp : p = pid
    · subst hp
      simp only [ptErase, if_pos rfl]
      exact ptLookup_eq_none_of_not_mem tl p h.1
    · simp only [ptErase, if_neg hp, ptLookup, if_neg hp]
      exact ih h.2

end BPM

/-- C1: on a pool where page 5 is mapped at frame 0 with `pin_count = 1` and a
clear dirty bit, `UnpinPageImpl(5, true)` returns `true` (the unpin happens)
yet leaves the page's dirty bit `false` — the source ignores the `is_dirty`
argument, so unpinning never sets the dirty bit as the claim requires. -/
theorem unpinPage_true_leaves_dirty_bit_clear :
    (BPM.BufferPoolManager.UnpinPageImpl
        { pool_size := 1, pages := [{ page_id := 5, pin_count := 1, is_dirty := false }],
          page_table := [(5, 0)], free_list := [], replacer := ⟨1, []⟩,
          next_disk_page := 6, trace := [] } 5 true).1 = true ∧
    ((BPM.BufferPoolManager.UnpinPageImpl
        { pool_size := 1, pages := [{ page_id := 5, pin_count := 1, is_dirty := false }],
          page_table := [(5, 0)], free_list := [], replacer := ⟨1, []⟩,
          next_disk_page := 6, trace := [] } 5 true).2.pageAt 0).is_dirty = false := by
  constructor <;> decide

/-- C4 (counterexample): with capacity 2 and victim order `[2, 1]` (front to
back; 1 is the least-recently-unused entry at the back), `Unpin 3` evicts the
FRONT entry 2, producing `[3, 1]` — not `[3, 2]` as the claim's
evict-the-oldest policy would give. -/
theorem unpin_at_capacity_does_not_evict_back :
    ((⟨2, [2, 1]⟩ : LRU.LRUReplacer).Unpin 3).lruList = [3, 1] ∧
    ((⟨2, [2, 1]⟩ : LRU.LRUReplacer).Unpin 3).lruList ≠ [3, 2] := by
  constructor <;> decide

/-- C4 (amended): for every frame `f` not currently in the replacer, when the
replacer holds at least capacity entries, `Unpin f` evicts the entry at the
FRONT of the victim order (the most recently unpinned one) and enqueues `f`
at the front; `Victim` always returns and removes the least-recently-unused
entry (the back of the list). -/
theorem unpin_at_capacity_evicts_front_and_victim_takes_back :
    ∀ (r : LRU.LRUReplacer) (f : Int),
      (f ∉ r.lruList → r.Size ≥ r.capacity →
        (r.Unpin f).lruList = f :: r.lruList.drop 1) ∧
      (∀ (l : List Int) (x : Int), r.lruList = l ++ [x] →
        r.Victim = (some x, { r with lruList := l })) := by
  intro r f
  constructor
  · intro hnot hfull
    simp [LRU.LRUReplacer.Unpin, hnot, hfull, List.drop_one]
  · intro l x hl
    simp [LRU.LRUReplacer.Victim, hl]

/-- C4 (witness): the amended theorem evaluated on the concrete replacer of
the counterexample — `Unpin 3` on full `[2, 1]` yields `[3, 1]`, and `Victim`
on `[2, 1]` removes the back entry 1. -/
theorem unpin_at_capacity_evicts_front_witness :
    ((⟨2, [2, 1]⟩ : LRU.LRUReplacer).Unpin 3).lruList = 3 :: List.drop 1 [2, 1] ∧
    (⟨2, [2, 1]⟩ : LRU.LRUReplacer).Victim = (some 1, ⟨2, [2]⟩) :=
  ⟨(unpin_at_capacity_evicts_front_and_victim_takes_back ⟨2, [2, 1]⟩ 3).1
      (by decide) (by decide),
   (unpin_at_capacity_evicts_front_and_victim_takes_back ⟨2, [2, 1]⟩ 3).2
      [2] 1 (by decide)⟩

/-- C7: `DeletePageImpl` returns `true` when the page is unmapped, still
deallocating it on disk; returns `false` and leaves the state untouched when
the page is mapped with a positive pin count; otherwise removes the
page-table mapping (so a duplicate-free table no longer maps the page),
appends the frame to the free list, deallocates the page on disk and returns
`true`. -/
theorem deletePage_spec :
    ∀ (s : BPM.BufferPoolManager) (pid : Int),
      (BPM.ptLookup s.page_table pid = none →
        s.DeletePageImpl pid =
          (true, { s with trace := s.trace ++ [BPM.DiskOp.dealloc pid] })) ∧
      (∀ fid, BPM.ptLookup s.page_table pid = some fid →
        (s.pageAt fid).pin_count > 0 → s.DeletePageImpl pid = (false, s)) ∧
      (∀ fid, BPM.ptLookup s.page_table pid = some fid →
        ¬ (s.pageAt fid).pin_count > 0 →
        (s.DeletePageImpl pid).1 = true ∧
        (s.DeletePageImpl pid).2.page_table = BPM.ptErase s.page_table pid ∧
        ((s.page_table.map Prod.fst).Nodup →
          BPM.ptLookup (s.DeletePageImpl pid).2.page_table pid = none) ∧
        (s.DeletePageImpl pid).2.free_list = s.free_list ++ [fid] ∧
        (s.DeletePageImpl pid).2.trace = s.trace ++ [BPM.DiskOp.dealloc pid]) := by
  intro s pid
  refine ⟨fun hnone => ?_, fun fid hsome hpin => ?_, fun fid hsome hpin => ?_⟩
  · simp [BPM.BufferPoolManager.DeletePageImpl, hnone]
  · simp [BPM.BufferPoolManager.DeletePageImpl, hsome, hpin]
  · have heq : s.DeletePageImpl pid =
        (true, { s with page_table := BPM.ptErase s.page_table pid,
                        trace := s.trace ++ [BPM.DiskOp.dealloc pid],
                        free_list := s.free_list ++ [fid] }) := by
      simp [BPM.BufferPoolManager.DeletePageImpl, hsome, hpin]
    rw [heq]
    exact ⟨rfl, rfl, fun hnd => BPM.ptLookup_ptErase_self _ _ hnd, rfl, rfl⟩

/-- C7 (witness): the three branches of `deletePage_spec` evaluated on
concrete pools — deleting unmapped page 7 succeeds and deallocates it;
deleting page 5 pinned at frame 0 fails; deleting unpinned page 5 removes
the mapping and frees frame 0. -/
theorem deletePage_spec_witness :
    (BPM.BufferPoolManager.DeletePageImpl
        { pool_size := 1, pages := [{ page_id := 5, pin_count := 0, is_dirty := true }],
          page_table := [(5, 0)], free_list := [], replacer := ⟨1, [0]⟩,
          next_disk_page := 6, trace := [] } 7 =
      (true, { pool_size := 1, pages := [{ page_id := 5, pin_count := 0, is_dirty := true }],
               page_table := [(5, 0)], free_list := [], replacer := ⟨1, [0]⟩,
               next_disk_page := 6, trace := [BPM.DiskOp.dealloc 7] })) ∧
    (BPM.BufferPoolManager.DeletePageImpl
        { pool_size := 1, pages := [{ page_id := 5, pin_count := 2, is_dirty := false }],
          page_table := [(5, 0)], free_list := [], replacer := ⟨1, []⟩,
          next_disk_page := 6, trace := [] } 5 =
      (false, { pool_size := 1, pages := [{ page_id := 5, pin_count := 2, is_dirty := false }],
                page_table := [(5, 0)], free_list := [], replacer := ⟨1, []⟩,
                next_disk_page := 6, trace := [] })) ∧
    (BPM.BufferPoolManager.DeletePageImpl
        { pool_size := 1, pages := [{ page_id := 5, pin_count := 0, is_dirty := true }],
          page_table := [(5, 0)], free_list := [], replacer := ⟨1, [0]⟩,
          next_disk_page := 6, trace := [] } 5).2.free_list = [] ++ [0] := by
  refine ⟨?_, ?_, ?_⟩
  · exact (deletePage_spec
      { pool_size := 1, pages := [{ page_id := 5, pin_count := 0, is_dirty := true }],
        page_table := [(5, 0)], free_list := [], replacer := ⟨1, [0]⟩,
        next_disk_page := 6, trace := [] } 7).1 (by decide)
  · exact (deletePage_spec
      { pool_size := 1, pages := [{ page_id := 5, pin_count := 2, is_dirty := false }],
        page_table := [(5, 0)], free_list := [], replacer := ⟨1, []⟩,
        next_disk_page := 6, trace := [] } 5).2.1 0 (by decide) (by decide)
  · exact ((deletePage_spec
      { pool_size := 1, pages := [{ page_id := 5, pin_count := 0, is_dirty := true }],
        page_table := [(5, 0)], free_list := [], replacer := ⟨1, [0]⟩,
        next_disk_page := 6, trace := [] } 5).2.2 0 (by decide) (by decide)).2.2.2.1

/-- C8: `FlushAllPagesImpl` has an empty body in the source: it is the
identity on the pool state and in particular performs no disk write, even
when mapped dirty pages exist. -/
theorem flushAllPages_is_noop :
    ∀ s : BPM.BufferPoolManager, s.FlushAllPagesImpl = s := fun _ => rfl

/-- Trace behaviour of `FindReplace`: it appends at most one disk write (the
dirty victim write-back), never allocates or deallocates, never advances the
disk allocation cursor, and on failure leaves trace and page table alone. -/
theorem FindReplace_trace_spec (s : BPM.BufferPoolManager) :
    ∃ w, (s.FindReplace).2.trace = s.trace ++ w ∧
      (∀ op ∈ w, ∃ pid, op = BPM.DiskOp.write pid) ∧
      (s.FindReplace).2.next_disk_page = s.next_disk_page ∧
      ((s.FindReplace).1 = none → w = [] ∧
        (s.FindReplace).2.page_table = s.page_table) := by
  rcases hf : s.free_list with _ | ⟨fid, rest⟩
  · rcases hv : s.replacer.Victim with ⟨_ | vfid, r⟩
    · refine ⟨[], ?_, by simp, ?_, ?_⟩ <;>
        simp [BPM.BufferPoolManager.FindReplace, hf, hv]
    · rcases hp : BPM.ptFindByFrame s.page_table vfid with _ | rpid
      · refine ⟨[], ?_, by simp, ?_, ?_⟩ <;>
          simp [BPM.BufferPoolManager.FindReplace, hf, hv, hp]
      · refine ⟨if (s.pageAt vfid).is_dirty then [BPM.DiskOp.write rpid] else [],
          ?_, ?_, ?_, ?_⟩ <;>
          by_cases hd : (s.pageAt vfid).is_dirty <;>
          simp_all [BPM.BufferPoolManager.FindReplace, BPM.BufferPoolManager.pageAt,
            hf, hv, hp]
  · refine ⟨[], ?_, by simp, ?_, ?_⟩ <;>
      simp [BPM.BufferPoolManager.FindReplace, hf]

/-- C10: `NewPageImpl` calls `DiskManager::AllocatePage` exactly once and
before any frame-availability check: the trace it appends starts with the
allocation of the fresh id and otherwise holds only victim write-backs (in
particular no further allocation and no deallocation).  When it fails
(returns null because no frame is available) the fresh id has still been
consumed (`next_disk_page` advanced), nothing else was appended to the trace
— so the id is never deallocated — and no mapping for it was installed. -/
theorem newPage_allocates_exactly_once_first (s : BPM.BufferPoolManager) :
    ∃ rest, (s.NewPageImpl).2.trace
        = s.trace ++ [BPM.DiskOp.alloc s.next_disk_page] ++ rest ∧
      (∀ op ∈ rest, ∃ pid, op = BPM.DiskOp.write pid) ∧
      (s.NewPageImpl).2.next_disk_page = s.next_disk_page + 1 ∧
      ((s.NewPageImpl).1 = none → rest = [] ∧
        (s.NewPageImpl).2.page_table = s.page_table) := by
  obtain ⟨w, hw1, hw2, hw3, hw4⟩ := FindReplace_trace_spec
    { s with next_disk_page := s.next_disk_page + 1,
             trace := s.trace ++ [BPM.DiskOp.alloc s.next_disk_page] }
  rcases hfr : ({ s with next_disk_page := s.next_disk_page + 1,
                         trace := s.trace ++ [BPM.DiskOp.alloc s.next_disk_page] } :
      BPM.BufferPoolManager).FindReplace with ⟨o, s2⟩
  rw [hfr] at hw1 hw3 hw4
  dsimp only at hw1 hw3 hw4
  cases o with
  | none =>
    obtain ⟨hwnil, hpt⟩ := hw4 rfl
    subst hwnil
    refine ⟨[], ?_, by simp, ?_, fun _ => ⟨rfl, ?_⟩⟩ <;>
      simp_all [BPM.BufferPoolManager.NewPageImpl, hfr]
  | some fid =>
    refine ⟨w, ?_, hw2, ?_, ?_⟩ <;>
      simp [BPM.BufferPoolManager.NewPageImpl, BPM.BufferPoolManager.setPage,
        hfr, hw1, hw3]

/-- C10 (witness): on a one-frame pool whose only frame is pinned,
`NewPageImpl` fails, yet disk page 6 has been allocated (the only trace
event) and no mapping for it exists. -/
theorem newPage_allocates_exactly_once_first_witness :
    (BPM.BufferPoolManager.NewPageImpl
        { pool_size := 1, pages := [{ page_id := 5, pin_count := 1, is_dirty := false }],
          page_table := [(5, 0)], free_list := [], replacer := ⟨1, []⟩,
          next_disk_page := 6, trace := [] }).2.trace = [BPM.DiskOp.alloc 6] ∧
    (BPM.BufferPoolManager.NewPageImpl
        { pool_size := 1, pages := [{ page_id := 5, pin_count := 1, is_dirty := false }],
          page_table := [(5, 0)], free_list := [], replacer := ⟨1, []⟩,
          next_disk_page := 6, trace := [] }).2.page_table = [(5, 0)] := by
  obtain ⟨rest, h1, h2, h3, h4⟩ := newPage_allocates_exactly_once_first
    { pool_size := 1, pages := [{ page_id := 5, pin_count := 1, is_dirty := false }],
      page_table := [(5, 0)], free_list := [], replacer := ⟨1, []⟩,
      next_disk_page := 6, trace := [] }
  obtain ⟨hre, hpt⟩ := h4 (by decide)
  subst hre
  exact ⟨by simpa using h1, by simpa using hpt⟩

namespace LM

/-- `LockManager::LockMode` (`src/include/concurrency/lock_manager.h`). -/
inductive LockMode where
  | shared
  | exclusive
deriving Repr, DecidableEq

/-- `TransactionState` — the 2PL state of a transaction. -/
inductive TransactionState where
  | growing
  | shrinking
  | committed
  | aborted
deriving Repr, DecidableEq

/-- `LockManager::LockRequest` — txn id, requested mode, granted flag. -/
structure LockRequest where
  txn_id : Int
  lock_mode : LockMode
  granted : Bool := false
deriving Repr, DecidableEq

/-- `LockManager::LockRequestQueue` — the per-RID request list plus the
`reading_count_` and `is_writting_` counters (member names as in the
source).  The condition variable is modelled by the `notified_all` flag of
`UnlockResult` below. -/
structure LockRequestQueue where
  request_queue : List LockRequest := []
  reading_count : Int := 0
  is_writting : Bool := false
deriving Repr, DecidableEq

/-- `Transaction` (from `src/include/concurrency/transaction.h`): 2PL state
and the held-lock RID sets.  RIDs are modelled as `Int`. -/
structure Transaction where
  txn_id : Int
  state : TransactionState := TransactionState.growing
  shared_lock_set : List Int := []
  exclusive_lock_set : List Int := []
deriving Repr, DecidableEq

/-- The lock table `lock_table_ : unordered_map<RID, LockRequestQueue>`,
modelled as an association list. -/
def LockTable := List (Int × LockRequestQueue)

instance : DecidableEq LockTable := by unfold LockTable; infer_instance

/-- `lock_table_[rid]` read access (`operator[]` default-constructs a missing
entry). -/
def ltGet (lt : LockTable) (rid : Int) : LockRequestQueue :=
  match lt with
  | [] => {}
  | (r, q) :: rest => if r = rid then q else ltGet rest rid

/-- Write back `lock_table_[rid]` (inserting the entry when missing, as
`operator[]` does). -/
def ltSet (lt : LockTable) (rid : Int) (q : LockRequestQueue) : LockTable :=
  match lt with
  | [] => [(rid, q)]
  | (r, q0) :: rest => if r = rid then (r, q) :: rest else (r, q0) :: ltSet rest rid q

/-- The erase loop of `Unlock`/`LockUpgrade`: drop every request of the given
transaction from a request list. -/
def eraseRequestsOf (txn_id : Int) : List LockRequest → List LockRequest
  | [] => []
  | r :: rest =>
    if r.txn_id = txn_id then eraseRequestsOf txn_id rest
    else r :: eraseRequestsOf txn_id rest

/-- Result of `LockManager::Unlock`: return value, updated transaction,
updated lock table, and whether `cv_.notify_all()` was invoked. -/
structure UnlockResult where
  ret : Bool
  txn : Transaction
  lock_table : LockTable
  notified_all : Bool
deriving DecidableEq

/-- `LockManager::Unlock` (`src/concurrency/lock_manager.cpp`).  Faithful to
the source: `auto lock_request_list = lock_table_[rid].request_queue_;` makes
a COPY of the request list; the erase loop runs on that local copy, whose
result is then dropped, so the queue stored in the table keeps the
transaction's requests.  The shared/exclusive held-set erases drive the
`reading_count_` decrement / `is_writting_` clear, `notify_all` is always
invoked, and a GROWING transaction moves to SHRINKING. -/
def Unlock (lt : LockTable) (txn : Transaction) (rid : Int) : UnlockResult :=
  let q := ltGet lt rid
  let lock_request_list := q.request_queue
  let txn1 := if txn.shared_lock_set.contains rid
    then { txn with shared_lock_set := txn.shared_lock_set.erase rid } else txn
  let q1 := if txn.shared_lock_set.contains rid
    then { q with reading_count := q.reading_count - 1 } else q
  let txn2 := if txn.exclusive_lock_set.contains rid
    then { txn1 with exclusive_lock_set := txn1.exclusive_lock_set.erase rid } else txn1
  let q2 := if txn.exclusive_lock_set.contains rid
    then { q1 with is_writting := false } else q1
  let _erased := eraseRequestsOf txn.txn_id lock_request_list
  let txn3 := if txn2.state = TransactionState.growing
    then { txn2 with state := TransactionState.shrinking } else txn2
  { ret := true, txn := txn3, lock_table := ltSet lt rid q2, notified_all := true }

/-- The waits-for graph `waits_for_ : unordered_map<txn_id_t, vector>`,
as an association list. -/
def WaitsFor := List (Int × List Int)

/-- `waits_for_[t]` (missing key ⇒ empty neighbor list, as `operator[]`
default-constructs). -/
def wfNeighbors (g : WaitsFor) (t : Int) : List Int :=
  match g with
  | [] => []
  | (k, ns) :: rest => if k = t then ns else wfNeighbors rest t

/-- The inner loop of `LockManager::dfs` scanning the DFS stack `trial` for a
back-edge target `child`: once the target is seen, the running `txn_id`
becomes the running maximum of the remaining stack entries. -/
def scanLoop (child : Int) (found : Bool) (acc : Int) : List Int → Bool × Int
  | [] => (found, acc)
  | i :: rest =>
    if child = i then scanLoop child true i rest
    else if found then scanLoop child true (max acc i) rest
    else scanLoop child found acc rest

mutual

/-- `LockManager::dfs` — push `current` on the stack and into `visited`, then
walk its neighbor list (`dfsChildren`).  `fuel` bounds the recursion depth
(the C++ recursion terminates because `visited` only grows; any
`fuel > ` number of vertices is enough). -/
def dfs (fuel : Nat) (g : WaitsFor) (current : Int) (trial : List Int)
    (visited : List Int) : Option Int × List Int :=
  match fuel with
  | 0 => (none, visited)
  | fuel + 1 =>
    dfsChildren fuel g (wfNeighbors g current) (trial ++ [current]) (current :: visited)
termination_by (fuel, 0)

/-- The `for (child : waits_for_[current])` loop of `LockManager::dfs`:
scan the stack for `child`; on a back-edge report the victim; otherwise
recurse into unvisited children, threading `visited`. -/
def dfsChildren (fuel : Nat) (g : WaitsFor) (children : List Int)
    (trial : List Int) (visited : List Int) : Option Int × List Int :=
  match children with
  | [] => (none, visited)
  | child :: rest =>
    match scanLoop child false 0 trial with
    | (true, v) => (some v, visited)
    | (false, _) =>
      if visited.contains child then dfsChildren fuel g rest trial visited
      else
        match dfs fuel g child trial visited with
        | (some v, vis) => (some v, vis)
        | (none, vis) => dfsChildren fuel g rest trial vis
termination_by (fuel, children.length + 1)

end

/-- The loop of `LockManager::HasCycle` over the keys of `waits_for_`,
sharing `visited` between the DFS roots. -/
def hasCycleList (fuel : Nat) (g : WaitsFor) (keys : List Int)
    (visited : List Int) : Option Int :=
  match keys with
  | [] => none
  | k :: rest =>
    match dfs fuel g k [] visited with
    | (some v, _) => some v
    | (none, vis) => hasCycleList fuel g rest vis

/-- `LockManager::HasCycle` — try a DFS from every vertex of the graph. -/
def HasCycle (fuel : Nat) (g : WaitsFor) : Option Int :=
  hasCycleList fuel g (g.map Prod.fst) []

/-- The abort sweep in `RunCycleDetection`: on aborting `txn_id`, erase it as
a source and remove it from every neighbor list (`RemoveEdge`). -/
def purgeTxn (g : WaitsFor) (t : Int) : WaitsFor :=
  (List.filter (fun p => p.1 ≠ t) g).map (fun p => (p.1, p.2.erase t))

/-- The `while (HasCycle(&txn_id))` loop of `RunCycleDetection`: abort the
reported victim, purge it from the graph, repeat until no cycle is found
(`fuel` bounds the iterations; `dfsfuel` is the DFS recursion budget).
Returns the aborted victims in order. -/
def abortLoop (fuel dfsfuel : Nat) (g : WaitsFor) : List Int :=
  match fuel with
  | 0 => []
  | fuel + 1 =>
    match HasCycle dfsfuel g with
    | none => []
    | some t => t :: abortLoop fuel dfsfuel (purgeTxn g t)

/-- First occurrence suffix: the DFS-stack segment from the back-edge target
onward (the vertices of the detected cycle). -/
def suffixFrom : List Int → Int → List Int
  | [], _ => []
  | x :: xs, c => if x = c then x :: xs else suffixFrom xs c

end LM

namespace LM

/-- Reading back the entry just written into the lock table. -/
theorem ltGet_ltSet (lt : LockTable) (rid : Int) (q : LockRequestQueue) :
    ltGet (ltSet lt rid q) rid = q := by
  induction lt with
  | nil => simp [ltSet, ltGet]
  | cons hd tl ih =>
    obtain ⟨r, q0⟩ := hd
    by_cases hr : r = rid <;> simp [ltSet, ltGet, hr, ih]

end LM

/-- C6 (counterexample): transaction 1 holds an S lock on RID 0 whose granted
request sits in the queue; after `Unlock`, that request still sits in the
queue — the erase loop ran on a local copy — contradicting the claim that no
request by the transaction remains. -/
theorem unlock_leaves_request_in_queue :
    (LM.ltGet (LM.Unlock
        [(0, { request_queue := [{ txn_id := 1, lock_mode := LM.LockMode.shared,
                                   granted := true }],
               reading_count := 1, is_writting := false })]
        { txn_id := 1, shared_lock_set := [0] } 0).lock_table 0).request_queue
      = [{ txn_id := 1, lock_mode := LM.LockMode.shared, granted := true }] ∧
    ({ txn_id := 1, lock_mode := LM.LockMode.shared, granted := true } :
        LM.LockRequest) ∈
      (LM.ltGet (LM.Unlock
        [(0, { request_queue := [{ txn_id := 1, lock_mode := LM.LockMode.shared,
                                   granted := true }],
               reading_count := 1, is_writting := false })]
        { txn_id := 1, shared_lock_set := [0] } 0).lock_table 0).request_queue := by
  constructor <;> decide

/-- C6 (amended): after `Unlock(txn, rid)` the per-RID request queue is left
UNCHANGED (the erasure happens on a local copy, so the transaction's requests
remain); `reading_count` is decremented exactly when the txn held S on the
rid, `is_writting` is cleared when it held X, the rid leaves the txn's
held-lock sets, all waiters on the RID's condition variable are notified,
and a GROWING transaction transitions to SHRINKING. -/
theorem unlock_spec :
    ∀ (lt : LM.LockTable) (txn : LM.Transaction) (rid : Int),
      (LM.Unlock lt txn rid).ret = true ∧
      (LM.Unlock lt txn rid).notified_all = true ∧
      (LM.ltGet (LM.Unlock lt txn rid).lock_table rid).request_queue
          = (LM.ltGet lt rid).request_queue ∧
      (rid ∈ txn.shared_lock_set →
        (LM.ltGet (LM.Unlock lt txn rid).lock_table rid).reading_count
          = (LM.ltGet lt rid).reading_count - 1) ∧
      (rid ∉ txn.shared_lock_set →
        (LM.ltGet (LM.Unlock lt txn rid).lock_table rid).reading_count
          = (LM.ltGet lt rid).reading_count) ∧
      (rid ∈ txn.exclusive_lock_set →
        (LM.ltGet (LM.Unlock lt txn rid).lock_table rid).is_writting = false) ∧
      (txn.shared_lock_set.Nodup →
        rid ∉ (LM.Unlock lt txn rid).txn.shared_lock_set) ∧
      (txn.exclusive_lock_set.Nodup →
        rid ∉ (LM.Unlock lt txn rid).txn.exclusive_lock_set) ∧
      (txn.state = LM.TransactionState.growing →
        (LM.Unlock lt txn rid).txn.state = LM.TransactionState.shrinking) := by
  intro lt txn rid
  by_cases hs : rid ∈ txn.shared_lock_set <;>
  by_cases hx : rid ∈ txn.exclusive_lock_set <;>
  by_cases hg : txn.state = LM.TransactionState.growing <;>
    simp_all [LM.Unlock, LM.ltGet_ltSet, List.Nodup.not_mem_erase]

/-- C6 (witness): `unlock_spec` instantiated on the counterexample state —
the unlock succeeds, notifies, decrements `reading_count`, removes RID 0 from
the txn's S-set, and moves the txn to SHRINKING. -/
theorem unlock_spec_witness :
    (LM.Unlock
        [(0, { request_queue := [{ txn_id := 1, lock_mode := LM.LockMode.shared,
                                   granted := true }],
               reading_count := 1, is_writting := false })]
        { txn_id := 1, shared_lock_set := [0] } 0).ret = true ∧
    (LM.ltGet (LM.Unlock
        [(0, { request_queue := [{ txn_id := 1, lock_mode := LM.LockMode.shared,
                                   granted := true }],
               reading_count := 1, is_writting := false })]
        { txn_id := 1, shared_lock_set := [0] } 0).lock_table 0).reading_count
      = (LM.ltGet
          [(0, { request_queue := [{ txn_id := 1, lock_mode := LM.LockMode.shared,
                                     granted := true }],
                 reading_count := 1, is_writting := false })] 0).reading_count - 1 ∧
    (0 : Int) ∉ (LM.Unlock
        [(0, { request_queue := [{ txn_id := 1, lock_mode := LM.LockMode.shared,
                                   granted := true }],
               reading_count := 1, is_writting := false })]
        { txn_id := 1, shared_lock_set := [0] } 0).txn.shared_lock_set ∧
    (LM.Unlock
        [(0, { request_queue := [{ txn_id := 1, lock_mode := LM.LockMode.shared,
                                   granted := true }],
               reading_count := 1, is_writting := false })]
        { txn_id := 1, shared_lock_set := [0] } 0).txn.state
      = LM.TransactionState.shrinking := by
  have h := unlock_spec
    [(0, { request_queue := [{ txn_id := 1, lock_mode := LM.LockMode.shared,
                               granted := true }],
           reading_count := 1, is_writting := false })]
    { txn_id := 1, shared_lock_set := [0] } 0
  exact ⟨h.1, h.2.2.2.1 (by decide), h.2.2.2.2.2.2.1 (by decide), h.2.2.2.2.2.2.2.2 (by decide)⟩

namespace LM

/-- Folding `max` never goes below the seed. -/
theorem le_foldl_max (l : List Int) : ∀ a : Int, a ≤ l.foldl max a := by
  induction l with
  | nil => intro a; exact le_refl a
  | cons i rest ih =>
    intro a
    exact le_trans (le_max_left a i) (ih (max a i))

/-- Folding `max` dominates every list element. -/
theorem foldl_max_le_of_mem (l : List Int) :
    ∀ (a x : Int), x ∈ l → x ≤ l.foldl max a := by
  induction l with
  | nil => intro a x hx; cases hx
  | cons i rest ih =>
    intro a x hx
    rcases List.mem_cons.mp hx with h | h
    · subst h
      exact le_trans (le_max_right a x) (le_foldl_max rest (max a x))
    · exact ih (max a i) x h

/-- The fold of `max` is the seed or one of the elements. -/
theorem foldl_max_mem (l : List Int) :
    ∀ a : Int, l.foldl max a = a ∨ l.foldl max a ∈ l := by
  induction l with
  | nil => intro a; exact Or.inl rfl
  | cons i rest ih =>
    intro a
    rcases ih (max a i) with h | h
    · rcases max_choice a i with hm | hm
      · exact Or.inl (by rw [List.foldl_cons, h, hm])
      · exact Or.inr (by rw [List.foldl_cons, h, hm]; exact List.mem_cons_self i rest)
    · exact Or.inr (List.mem_cons_of_mem i h)

/-- The stack scan reports nothing when the back-edge target is absent. -/
theorem scanLoop_not_mem_false (c : Int) (l : List Int) :
    ∀ acc : Int, c ∉ l → scanLoop c false acc l = (false, acc) := by
  induction l with
  | nil => intro acc _; rfl
  | cons i rest ih =>
    intro acc h
    have hne : c ≠ i := fun he => h (he ▸ List.mem_cons_self i rest)
    simp only [scanLoop, if_neg hne, if_neg (Bool.false_ne_true)]
    exact ih acc fun hc => h (List.mem_cons_of_mem i hc)

/-- Once the target has been seen, the scan accumulates the running maximum
of the remaining stack entries. -/
theorem scanLoop_found_eq (c : Int) (l : List Int) :
    ∀ a : Int, c ∉ l → scanLoop c true a l = (true, l.foldl max a) := by
  induction l with
  | nil => intro a _; rfl
  | cons i rest ih =>
    intro a h
    have hne : c ≠ i := fun he => h (he ▸ List.mem_cons_self i rest)
    simp only [scanLoop, if_neg hne, if_pos rfl, List.foldl_cons]
    exact ih (max a i) fun hc => h (List.mem_cons_of_mem i hc)

/-- Scanning a duplicate-free stack that contains the back-edge target
succeeds and returns the maximum of the stack suffix starting at the
target. -/
theorem scanLoop_spec (trial : List Int) (child : Int)
    (hmem : child ∈ trial) (hnd : trial.Nodup) :
    (scanLoop child false 0 trial).1 = true ∧
    (scanLoop child false 0 trial).2 ∈ suffixFrom trial child ∧
    ∀ y ∈ suffixFrom trial child, y ≤ (scanLoop child false 0 trial).2 := by
  induction trial with
  | nil => cases hmem
  | cons x xs ih =>
    by_cases hx : child = x
    · subst hx
      have hnotin : child ∉ xs := (List.nodup_cons.mp hnd).1
      have hscan : scanLoop child false 0 (child :: xs) =
          (true, xs.foldl max child) := by
        simp only [scanLoop, if_pos rfl]
        exact scanLoop_found_eq child xs child hnotin
      have hsuf : suffixFrom (child :: xs) child = child :: xs := by
        simp [suffixFrom]
      rw [hscan, hsuf]
      refine ⟨rfl, ?_, ?_⟩
      · rcases foldl_max_mem xs child with h | h
        · rw [h]; exact List.mem_cons_self child xs
        · exact List.mem_cons_of_mem child h
      · intro y hy
        rcases List.mem_cons.mp hy with h | h
        · subst h; exact le_foldl_max xs y
        · exact foldl_max_le_of_mem xs child y h
    · have hmem' : child ∈ xs := by
        rcases List.mem_cons.mp hmem with h | h
        · exact absurd h hx
        · exact h
      have hscan : scanLoop child false 0 (x :: xs) = scanLoop child false 0 xs := by
        simp only [scanLoop, if_neg hx, if_neg (Bool.false_ne_true)]
      have hsuf : suffixFrom (x :: xs) child = suffixFrom xs child := by
        simp only [suffixFrom, if_neg (Ne.symm hx)]
      rw [hscan, hsuf]
      exact ih hmem' (List.nodup_cons.mp hnd).2

end LM

namespace LM

/-- The `visited` set only grows across `dfs` and `dfsChildren`. -/
theorem dfs_mono_pair :
    ∀ fuel : Nat,
      (∀ (g : WaitsFor) (cur : Int) (trial : List Int),
        ∀ (visited : List Int) (x : Int),
          x ∈ visited → x ∈ (dfs fuel g cur trial visited).2) ∧
      (∀ (g : WaitsFor) (ch : List Int) (trial : List Int),
        ∀ (visited : List Int) (x : Int),
          x ∈ visited → x ∈ (dfsChildren fuel g ch trial visited).2) := by
  intro fuel
  induction fuel with
  | zero =>
    have hdfs : ∀ (g : WaitsFor) (cur : Int) (trial : List Int),
        ∀ (visited : List Int) (x : Int),
          x ∈ visited → x ∈ (dfs 0 g cur trial visited).2 := by
      intro g cur trial visited x hx
      simpa [dfs] using hx
    refine ⟨hdfs, ?_⟩
    intro g ch trial
    induction ch with
    | nil => intro visited x hx; simpa [dfsChildren] using hx
    | cons c rest ih =>
      intro visited x hx
      rcases hscan : scanLoop c false 0 trial with ⟨found, v⟩
      cases found
      · by_cases hc : c ∈ visited
        · simpa [dfsChildren, hscan, hc] using ih visited x hx
        · rcases hd : dfs 0 g c trial visited with ⟨o, vis⟩
          have hxvis : x ∈ vis := by
            have h0 := hdfs g c trial visited x hx
            rwa [hd] at h0
          cases o with
          | none => simpa [dfsChildren, hscan, hc, hd] using ih vis x hxvis
          | some v1 => simpa [dfsChildren, hscan, hc, hd] using hxvis
      · simpa [dfsChildren, hscan] using hx
  | succ k ihk =>
    have hdfs : ∀ (g : WaitsFor) (cur : Int) (trial : List Int),
        ∀ (visited : List Int) (x : Int),
          x ∈ visited → x ∈ (dfs (k + 1) g cur trial visited).2 := by
      intro g cur trial visited x hx
      simp only [dfs]
      exact ihk.2 g _ _ _ x (List.mem_cons_of_mem _ hx)
    refine ⟨hdfs, ?_⟩
    intro g ch trial
    induction ch with
    | nil => intro visited x hx; simpa [dfsChildren] using hx
    | cons c rest ih =>
      intro visited x hx
      rcases hscan : scanLoop c false 0 trial with ⟨found, v⟩
      cases found
      · by_cases hc : c ∈ visited
        · simpa [dfsChildren, hscan, hc] using ih visited x hx
        · rcases hd : dfs (k + 1) g c trial visited with ⟨o, vis⟩
          have hxvis : x ∈ vis := by
            have h0 := hdfs g c trial visited x hx
            rwa [hd] at h0
          cases o with
          | none => simpa [dfsChildren, hscan, hc, hd] using ih vis x hxvis
          | some v1 => simpa [dfsChildren, hscan, hc, hd] using hxvis
      · simpa [dfsChildren, hscan] using hx
end LM

namespace LM

/-- Every victim reported by `dfs`/`dfsChildren` comes from a back-edge scan
of the DFS stack: there is a duplicate-free stack `t` containing the
back-edge target `c` whose scan yields exactly that victim. -/
theorem dfs_sound_pair :
    ∀ fuel : Nat,
      (∀ (g : WaitsFor) (cur : Int) (trial : List Int),
        ∀ (visited : List Int) (v : Int) (vis : List Int),
          dfs fuel g cur trial visited = (some v, vis) →
          trial.Nodup → cur ∉ trial → (∀ x ∈ trial, x ∈ visited) →
          ∃ t c, t.Nodup ∧ c ∈ t ∧ scanLoop c false 0 t = (true, v)) ∧
      (∀ (g : WaitsFor) (ch : List Int) (trial : List Int),
        ∀ (visited : List Int) (v : Int) (vis : List Int),
          dfsChildren fuel g ch trial visited = (some v, vis) →
          trial.Nodup → (∀ x ∈ trial, x ∈ visited) →
          ∃ t c, t.Nodup ∧ c ∈ t ∧ scanLoop c false 0 t = (true, v)) := by
  intro fuel
  induction fuel with
  | zero =>
    have hdfs : ∀ (g : WaitsFor) (cur : Int) (trial : List Int),
        ∀ (visited : List Int) (v : Int) (vis : List Int),
          dfs 0 g cur trial visited = (some v, vis) →
          trial.Nodup → cur ∉ trial → (∀ x ∈ trial, x ∈ visited) →
          ∃ t c, t.Nodup ∧ c ∈ t ∧ scanLoop c false 0 t = (true, v) := by
      intro g cur trial visited v vis h _ _ _
      simp [dfs] at h
    refine ⟨hdfs, ?_⟩
    intro g ch trial
    induction ch with
    | nil =>
      intro visited v vis h _ _
      simp [dfsChildren] at h
    | cons c rest ih =>
      intro visited v vis h hnd hsub
      rcases hscan : scanLoop c false 0 trial with ⟨found, v0⟩
      cases found
      · by_cases hc : c ∈ visited
        · simp [dfsChildren, hscan, hc] at h
          exact ih visited v vis h hnd hsub
        · rcases hd : dfs 0 g c trial visited with ⟨o, vis1⟩
          cases o with
          | some v1 =>
            simp [dfsChildren, hscan, hc, hd] at h
            exact hdfs g c trial visited v vis1 (h.1 ▸ hd) hnd
              (fun hm => hc (hsub c hm)) hsub
          | none =>
            simp [dfsChildren, hscan, hc, hd] at h
            refine ih vis1 v vis h hnd ?_
            intro x hx
            have h0 := (dfs_mono_pair 0).1 g c trial visited x (hsub x hx)
            rwa [hd] at h0
      · simp [dfsChildren, hscan] at h
        have hcmem : c ∈ trial := by
          by_contra hcm
          have hsl := scanLoop_not_mem_false c trial 0 hcm
          rw [hsl] at hscan
          simp at hscan
        exact ⟨trial, c, hnd, hcmem, by rw [hscan, h.1]⟩
  | succ k ihk =>
    have hdfs : ∀ (g : WaitsFor) (cur : Int) (trial : List Int),
        ∀ (visited : List Int) (v : Int) (vis : List Int),
          dfs (k + 1) g cur trial visited = (some v, vis) →
          trial.Nodup → cur ∉ trial → (∀ x ∈ trial, x ∈ visited) →
          ∃ t c, t.Nodup ∧ c ∈ t ∧ scanLoop c false 0 t = (true, v) := by
      intro g cur trial visited v vis h hnd hcur hsub
      simp only [dfs] at h
      refine ihk.2 g _ _ _ v vis h ?_ ?_
      · rw [List.nodup_append]
        exact ⟨hnd, List.nodup_singleton cur,
          fun x hx hx1 => hcur ((List.mem_singleton.mp hx1) ▸ hx)⟩
      · intro x hx
        rcases List.mem_append.mp hx with h1 | h1
        · exact List.mem_cons_of_mem _ (hsub x h1)
        · rw [List.mem_singleton.mp h1]
          exact List.mem_cons_self _ _
    refine ⟨hdfs, ?_⟩
    intro g ch trial
    induction ch with
    | nil =>
      intro visited v vis h _ _
      simp [dfsChildren] at h
    | cons c rest ih =>
      intro visited v vis h hnd hsub
      rcases hscan : scanLoop c false 0 trial with ⟨found, v0⟩
      cases found
      · by_cases hc : c ∈ visited
        · simp [dfsChildren, hscan, hc] at h
          exact ih visited v vis h hnd hsub
        · rcases hd : dfs (k + 1) g c trial visited with ⟨o, vis1⟩
          cases o with
          | some v1 =>
            simp [dfsChildren, hscan, hc, hd] at h
            exact hdfs g c trial visited v vis1 (h.1 ▸ hd) hnd
              (fun hm => hc (hsub c hm)) hsub
          | none =>
            simp [dfsChildren, hscan, hc, hd] at h
            refine ih vis1 v vis h hnd ?_
            intro x hx
            have h0 := (dfs_mono_pair (k + 1)).1 g c trial visited x (hsub x hx)
            rwa [hd] at h0
      · simp [dfsChildren, hscan] at h
        have hcmem : c ∈ trial := by
          by_contra hcm
          have hsl := scanLoop_not_mem_false c trial 0 hcm
          rw [hsl] at hscan
          simp at hscan
        exact ⟨trial, c, hnd, hcmem, by rw [hscan, h.1]⟩

end LM

namespace LM

/-- Soundness of the `HasCycle` key loop: any reported victim originates in a
stack scan. -/
theorem hasCycleList_sound :
    ∀ (fuel : Nat) (g : WaitsFor) (keys : List Int),
      ∀ (visited : List Int) (v : Int),
        hasCycleList fuel g keys visited = some v →
        ∃ t c, t.Nodup ∧ c ∈ t ∧ scanLoop c false 0 t = (true, v) := by
  intro fuel g keys
  induction keys with
  | nil =>
    intro visited v h
    simp [hasCycleList] at h
  | cons k rest ih =>
    intro visited v h
    rcases hd : dfs fuel g k [] visited with ⟨o, vis⟩
    cases o with
    | some v0 =>
      have hv : v0 = v := by
        simpa [hasCycleList, hd] using h
      exact (dfs_sound_pair fuel).1 g k [] visited v vis (hv ▸ hd)
        List.nodup_nil (List.not_mem_nil k) (by simp)
    | none =>
      refine ih vis v ?_
      simpa [hasCycleList, hd] using h

end LM

/-- C2: whenever the cycle detector finds a cycle, the victim is the largest
`txn_id` among the DFS stack vertices from the back-edge target onward (the
vertices of that cycle): the stack scan succeeds and returns the maximum of
the stack suffix starting at the back-edge target; every victim reported by
`HasCycle`, and every transaction aborted by the `while (HasCycle)` sweep of
`RunCycleDetection`, is such a maximum; and the sweep keeps aborting — on a
graph with a cycle it aborts the reported victim, purges it and continues,
stopping only when no cycle remains. -/
theorem cycle_victim_is_max_of_stack_suffix :
    (∀ (trial : List Int) (child : Int), child ∈ trial → trial.Nodup →
      (LM.scanLoop child false 0 trial).1 = true ∧
      (LM.scanLoop child false 0 trial).2 ∈ LM.suffixFrom trial child ∧
      ∀ y ∈ LM.suffixFrom trial child, y ≤ (LM.scanLoop child false 0 trial).2) ∧
    (∀ (fuel : Nat) (g : LM.WaitsFor) (v : Int), LM.HasCycle fuel g = some v →
      ∃ t c, t.Nodup ∧ c ∈ t ∧ v ∈ LM.suffixFrom t c ∧
        ∀ y ∈ LM.suffixFrom t c, y ≤ v) ∧
    (∀ (fuel dfsfuel : Nat) (g : LM.WaitsFor) (v : Int),
      v ∈ LM.abortLoop fuel dfsfuel g →
      ∃ t c, t.Nodup ∧ c ∈ t ∧ v ∈ LM.suffixFrom t c ∧
        ∀ y ∈ LM.suffixFrom t c, y ≤ v) ∧
    (∀ (fuel dfsfuel : Nat) (g : LM.WaitsFor) (t : Int),
      LM.HasCycle dfsfuel g = some t →
      LM.abortLoop (fuel + 1) dfsfuel g
        = t :: LM.abortLoop fuel dfsfuel (LM.purgeTxn g t)) ∧
    (∀ (fuel dfsfuel : Nat) (g : LM.WaitsFor),
      LM.HasCycle dfsfuel g = none → LM.abortLoop (fuel + 1) dfsfuel g = []) := by
  have hcyc : ∀ (fuel : Nat) (g : LM.WaitsFor) (v : Int),
      LM.HasCycle fuel g = some v →
      ∃ t c, t.Nodup ∧ c ∈ t ∧ v ∈ LM.suffixFrom t c ∧
        ∀ y ∈ LM.suffixFrom t c, y ≤ v := by
    intro fuel g v h
    obtain ⟨t, c, hnd, hc, hs⟩ :=
      LM.hasCycleList_sound fuel g (g.map Prod.fst) [] v
        (by simpa [LM.HasCycle] using h)
    obtain ⟨_, h2, h3⟩ := LM.scanLoop_spec t c hc hnd
    rw [hs] at h2 h3
    exact ⟨t, c, hnd, hc, h2, h3⟩
  refine ⟨fun trial child hm hnd => LM.scanLoop_spec trial child hm hnd,
    hcyc, ?_, ?_, ?_⟩
  · intro fuel
    induction fuel with
    | zero =>
      intro dfsfuel g v h
      simp [LM.abortLoop] at h
    | succ n ih =>
      intro dfsfuel g v h
      rcases hh : LM.HasCycle dfsfuel g with _ | t
      · simp [LM.abortLoop, hh] at h
      · simp only [LM.abortLoop, hh, List.mem_cons] at h
        rcases h with h | h
        · subst h; exact hcyc dfsfuel g v hh
        · exact ih dfsfuel (LM.purgeTxn g t) v h
  · intro fuel dfsfuel g t h
    simp [LM.abortLoop, h]
  · intro fuel dfsfuel g h
    simp [LM.abortLoop, h]

/-- C2 (witness): on the stack `[1, 2]` with back-edge target 1 the scan
returns 2, the maximum of the suffix `[1, 2]`; on the two-cycle
`1 → 2 → 1` the detector reports victim 2 (the larger txn id) and the abort
sweep aborts exactly it, then continues on the purged graph. -/
theorem cycle_victim_is_max_of_stack_suffix_witness :
    ((LM.scanLoop 1 false 0 [1, 2]).1 = true ∧
      (LM.scanLoop 1 false 0 [1, 2]).2 ∈ LM.suffixFrom [1, 2] 1 ∧
      ∀ y ∈ LM.suffixFrom [1, 2] 1, y ≤ (LM.scanLoop 1 false 0 [1, 2]).2) ∧
    (∃ t c, t.Nodup ∧ c ∈ t ∧ (2 : Int) ∈ LM.suffixFrom t c ∧
      ∀ y ∈ LM.suffixFrom t c, y ≤ 2) ∧
    LM.abortLoop 1 3 [(1, [2]), (2, [1])]
      = 2 :: LM.abortLoop 0 3 (LM.purgeTxn [(1, [2]), (2, [1])] 2) := by
  refine ⟨cycle_victim_is_max_of_stack_suffix.1 [1, 2] 1 (by decide) (by decide),
    cycle_victim_is_max_of_stack_suffix.2.1 3 [(1, [2]), (2, [1])] 2 ?_,
    cycle_victim_is_max_of_stack_suffix.2.2.2.1 0 3 [(1, [2]), (2, [1])] 2 ?_⟩ <;>
    simp [LM.HasCycle, LM.hasCycleList, LM.dfs, LM.dfsChildren, LM.wfNeighbors,
      LM.scanLoop]

namespace BPT

/-- `RID` — record id (`src/include/common/rid.h` is not part of the
sources; only its default-constructibility matters here: `RID rid;` in
`GetValue` leaves an invalid record id). -/
structure RID where
  page_id : Int := -1
  slot_num : Int := 0
deriving Repr, DecidableEq

/-- Leaf node (`b_plus_tree_leaf_page.h`): header plus the sorted
`(key, RID)` pair array.  Keys are modelled as `Int` (the `GenericKey` /
`GenericComparator` instantiations order fixed-width integer keys). -/
structure LeafNode where
  page_id : Int
  parent_page_id : Int
  next_page_id : Int
  max_size : Int
  entries : List (Int × RID)
deriving Repr, DecidableEq

/-- Internal node (`b_plus_tree_internal_page.cpp`): header plus the
`(key, child page id)` pair array; index 0's key is invalid/unused. -/
structure InternalNode where
  page_id : Int
  parent_page_id : Int
  max_size : Int
  entries : List (Int × Int)
deriving Repr, DecidableEq

/-- A page holding a B+tree node (tagged by `IsLeafPage`). -/
inductive BPTPage where
  | leaf : LeafNode → BPTPage
  | internal : InternalNode → BPTPage
deriving Repr, DecidableEq

/-- The buffer pool's view of the tree: page id → node. -/
def pgLookup (ps : List (Int × BPTPage)) (pid : Int) : Option BPTPage :=
  match ps with
  | [] => none
  | (p, q) :: rest => if p = pid then some q else pgLookup rest pid

/-- Store a node at a page id (insert or overwrite). -/
def pgSet (ps : List (Int × BPTPage)) (pid : Int) (pg : BPTPage) :
    List (Int × BPTPage) :=
  match ps with
  | [] => [(pid, pg)]
  | (p, q) :: rest => if p = pid then (p, pg) :: rest else (p, q) :: pgSet rest pid pg

/-- `BPlusTreePage::GetParentPageId`. -/
def BPTPage.parentId : BPTPage → Int
  | .leaf l => l.parent_page_id
  | .internal n => n.parent_page_id

/-- `BPlusTreePage::SetParentPageId`. -/
def BPTPage.withParent : BPTPage → Int → BPTPage
  | .leaf l, pid => .leaf { l with parent_page_id := pid }
  | .internal n, pid => .internal { n with parent_page_id := pid }

/-- Fetch a page and set its parent id (the fetch–SetParentPageId–unpin
sequences of `InsertIntoParent` and `MoveHalfTo`). -/
def setParentInPages (ps : List (Int × BPTPage)) (pid parent : Int) :
    List (Int × BPTPage) :=
  match pgLookup ps pid with
  | none => ps
  | some pg => pgSet ps pid (pg.withParent parent)

/-- `BPlusTree` state (`src/storage/index/b_plus_tree.cpp`): root page id,
the pages reachable through the buffer pool, the buffer pool's next fresh
page id (`NewPage`), and the two size parameters.  The header-page root
record (`UpdateRootPageId`) duplicates `root_page_id` and is elided. -/
structure BPlusTree where
  root_page_id : Int
  pages : List (Int × BPTPage)
  next_page_alloc : Int
  leaf_max_size : Int
  internal_max_size : Int
deriving Repr, DecidableEq

/-- `BPlusTree::IsEmpty` — `root_page_id_ == INVALID_PAGE_ID`. -/
def BPlusTree.IsEmpty (t : BPlusTree) : Bool := t.root_page_id = LRU.INVALID_PAGE_ID

/-- Scan from index 1 of `BPlusTreeInternalPage::Lookup`: return the child
left of the first separator exceeding the key, else the last child. -/
def internalLookupGo (key : Int) (prev : Int) : List (Int × Int) → Int
  | [] => prev
  | (k, v) :: rest => if key < k then prev else internalLookupGo key v rest

/-- `BPlusTreeInternalPage::Lookup` — `comparator(key, array[i].first) < 0`
is `key < k` on integer keys; an empty entry array is unreachable on
well-formed internals (C++ would read `array[-1]`). -/
def internalLookup (entries : List (Int × Int)) (key : Int) : Int :=
  match entries with
  | [] => LRU.INVALID_PAGE_ID
  | (_, v0) :: rest => internalLookupGo key v0 rest

/-- `BPlusTreeInternalPage::ValueAt`. -/
def internalValueAt (entries : List (Int × Int)) (i : Nat) : Int :=
  ((entries[i]?).map Prod.snd).getD LRU.INVALID_PAGE_ID

/-- `BPlusTreeInternalPage::InsertNodeAfter` — insert `(new_key, new_value)`
right after the entry whose value is `old_value`. -/
def insertNodeAfter (entries : List (Int × Int)) (old_value new_key new_value : Int) :
    List (Int × Int) :=
  match entries with
  | [] => []
  | (k, v) :: rest =>
    if v = old_value then (k, v) :: (new_key, new_value) :: rest
    else (k, v) :: insertNodeAfter rest old_value new_key new_value

/-- Modelled from the spec: `BPlusTreeLeafPage::Lookup`
(`b_plus_tree_leaf_page.cpp` is not among the sources).  §4.D: leaves hold a
sorted pair array searched for an exact key; the output `RID` is assigned
only when the key is found. -/
def leafLookup (entries : List (Int × RID)) (key : Int) : Option RID :=
  match entries with
  | [] => none
  | (k, v) :: rest => if k = key then some v else leafLookup rest key

/-- Modelled from the spec: leaf `Insert` (§4.D `KeyIndex` = first key ≥,
then insert at that slot keeping the array sorted; duplicates are never
passed in — `InsertIntoLeaf` aborts first). -/
def leafInsert (entries : List (Int × RID)) (key : Int) (val : RID) :
    List (Int × RID) :=
  match entries with
  | [] => [(key, val)]
  | (k, v) :: rest =>
    if key < k then (key, val) :: (k, v) :: rest
    else (k, v) :: leafInsert rest key val

/-- Modelled from the spec: `BPlusTreeLeafPage::Init` — §3 specifies the
sibling list is terminated by `INVALID_PAGE_ID`, so a fresh leaf's
`next_page_id` is `INVALID_PAGE_ID = -1`; size starts at 0. -/
def leafInit (page_id parent_id max_size : Int) : LeafNode :=
  { page_id := page_id, parent_page_id := parent_id,
    next_page_id := LRU.INVALID_PAGE_ID, max_size := max_size, entries := [] }

/-- Descent loop of `BPlusTree::FindLeafPage` / `FindLeafPageRW` (identical
page-routing: `leftMost ? ValueAt(0) : Lookup(key)`); `fuel` bounds the
depth; a missing page (e.g. fetching `INVALID_PAGE_ID`) yields `none`
(`FetchPage` returning null). -/
def findLeafGo (fuel : Nat) (t : BPlusTree) (key : Int) (leftMost : Bool)
    (pid : Int) : Option LeafNode :=
  match fuel with
  | 0 => none
  | fuel + 1 =>
    match pgLookup t.pages pid with
    | none => none
    | some (BPTPage.leaf l) => some l
    | some (BPTPage.internal node) =>
      findLeafGo fuel t key leftMost
        (if leftMost then internalValueAt node.entries 0
         else internalLookup node.entries key)

/-- `BPlusTree::FindLeafPage` (and the routing of `FindLeafPageRW`). -/
def FindLeafPage (fuel : Nat) (t : BPlusTree) (key : Int) (leftMost : Bool) :
    Option LeafNode :=
  findLeafGo fuel t key leftMost t.root_page_id

/-- `BPlusTree::GetValue` — find the leaf, `RID rid;` (default-constructed),
`res = leaf->Lookup(key, &rid)`, `result->push_back(rid)` UNCONDITIONALLY,
return `res`. -/
def GetValue (fuel : Nat) (t : BPlusTree) (key : Int) (result : List RID) :
    Option (Bool × List RID) :=
  match FindLeafPage fuel t key false with
  | none => none
  | some leaf =>
    match leafLookup leaf.entries key with
    | some v => some (true, result ++ [v])
    | none => some (false, result ++ [({} : RID)])

/-- Adopt the children moved by an internal `MoveHalfTo`: each moved child's
`parent_page_id` is set to the recipient (fetch, set, unpin dirty). -/
def adoptChildren (ps : List (Int × BPTPage)) (moved : List (Int × Int))
    (newParent : Int) : List (Int × BPTPage) :=
  match moved with
  | [] => ps
  | (_, cpid) :: rest => adoptChildren (setParentInPages ps cpid newParent) rest newParent

/-- `BPlusTree::InsertIntoParent` — if the split node was the root, build a
fresh internal root over the two halves (`PopulateNewRoot`; index 0's key is
unused and stored as 0), repoint both parents and the root id.  Otherwise
`InsertNodeAfter` into the parent, repoint the new node, and if the parent
overflows (`size > max_size`), split it (internal `MoveHalfTo` keeps the
first ⌊n/2⌋ entries, moves the rest and adopts their children) and
recurse. -/
def InsertIntoParent (fuel : Nat) (t : BPlusTree) (old_pid up_key new_pid : Int) :
    BPlusTree :=
  match fuel with
  | 0 => t
  | fuel + 1 =>
    match pgLookup t.pages old_pid with
    | none => t
    | some old_node =>
      if old_node.parentId = LRU.INVALID_PAGE_ID then
        let new_root_id := t.next_page_alloc
        let new_root : InternalNode :=
          { page_id := new_root_id, parent_page_id := LRU.INVALID_PAGE_ID,
            max_size := t.internal_max_size,
            entries := [(0, old_pid), (up_key, new_pid)] }
        let t := { t with next_page_alloc := t.next_page_alloc + 1 }
        let t := { t with pages := pgSet t.pages new_root_id (.internal new_root) }
        let t := { t with pages := setParentInPages t.pages old_pid new_root_id }
        let t := { t with pages := setParentInPages t.pages new_pid new_root_id }
        { t with root_page_id := new_root_id }
      else
        let parent_pid := old_node.parentId
        match pgLookup t.pages parent_pid with
        | some (BPTPage.internal parent) =>
          let parent1 :=
            { parent with entries := insertNodeAfter parent.entries old_pid up_key new_pid }
          let t := { t with pages := pgSet t.pages parent_pid (.internal parent1) }
          let t := { t with pages := setParentInPages t.pages new_pid parent_pid }
          if (parent1.entries.length : Int) > parent1.max_size then
            let split_pid := t.next_page_alloc
            let n := parent1.entries.length
            let keep := parent1.entries.take (n / 2)
            let moved := parent1.entries.drop (n / 2)
            let parent2 := { parent1 with entries := keep }
            let new_internal : InternalNode :=
              { page_id := split_pid, parent_page_id := parent1.parent_page_id,
                max_size := t.internal_max_size, entries := moved }
            let t := { t with next_page_alloc := t.next_page_alloc + 1 }
            let t := { t with pages := pgSet t.pages parent_pid (.internal parent2) }
            let t := { t with pages := pgSet t.pages split_pid (.internal new_internal) }
            let t := { t with pages := adoptChildren t.pages moved split_pid }
            let up2 := ((moved.head?).map Prod.fst).getD 0
            InsertIntoParent fuel t parent_pid up2 split_pid
          else t
        | _ => t

/-- `BPlusTree::StartNewTree` — allocate a fresh root leaf, `Init`, insert
the pair, persist the root id. -/
def StartNewTree (t : BPlusTree) (key : Int) (val : RID) : BPlusTree :=
  let root_id := t.next_page_alloc
  let leaf := leafInit root_id LRU.INVALID_PAGE_ID t.leaf_max_size
  let leaf := { leaf with entries := leafInsert leaf.entries key val }
  { t with root_page_id := root_id,
           next_page_alloc := t.next_page_alloc + 1,
           pages := pgSet t.pages root_id (.leaf leaf) }

/-- `BPlusTree::InsertIntoLeaf` — empty tree: `StartNewTree`, return true.
Otherwise descend to the leaf; if the key is already present return FALSE
without touching any page.  Else insert; on overflow
(`size > max_size - 1`) split the leaf (keep ⌊n/2⌋, move the rest, splice
the sibling list) and `InsertIntoParent`. -/
def InsertIntoLeaf (fuel : Nat) (t : BPlusTree) (key : Int) (val : RID) :
    Option (Bool × BPlusTree) :=
  if t.root_page_id = LRU.INVALID_PAGE_ID then some (true, StartNewTree t key val)
  else
    match FindLeafPage fuel t key false with
    | none => none
    | some leaf =>
      match leafLookup leaf.entries key with
      | some _ => some (false, t)
      | none =>
        let leaf1 := { leaf with entries := leafInsert leaf.entries key val }
        if (leaf1.entries.length : Int) > leaf1.max_size - 1 then
          let new_pid := t.next_page_alloc
          let n := leaf1.entries.length
          let keep := leaf1.entries.take (n / 2)
          let moved := leaf1.entries.drop (n / 2)
          let new_leaf : LeafNode :=
            { page_id := new_pid, parent_page_id := leaf1.parent_page_id,
              next_page_id := leaf1.next_page_id, max_size := t.leaf_max_size,
              entries := moved }
          let old_leaf := { leaf1 with entries := keep, next_page_id := new_pid }
          let t := { t with next_page_alloc := t.next_page_alloc + 1 }
          let t := { t with pages := pgSet t.pages leaf.page_id (.leaf old_leaf) }
          let t := { t with pages := pgSet t.pages new_pid (.leaf new_leaf) }
          let up_key := ((moved.head?).map Prod.fst).getD 0
          some (true, InsertIntoParent fuel t leaf.page_id up_key new_pid)
        else
          some (true, { t with pages := pgSet t.pages leaf.page_id (.leaf leaf1) })

/-- `BPlusTree::Insert` — delegates to `InsertIntoLeaf`. -/
def Insert (fuel : Nat) (t : BPlusTree) (key : Int) (val : RID) :
    Option (Bool × BPlusTree) :=
  InsertIntoLeaf fuel t key val

/-- State of `IndexIterator` (`src/storage/index/index_iterator.cpp`): the
buffer pool it fetches sibling leaves from, the current leaf, the index. -/
structure IndexIterator where
  pages : List (Int × BPTPage)
  leaf_page : LeafNode
  index : Int
deriving Repr, DecidableEq

/-- `IndexIterator::isEnd` — NOTE (faithful to the source): the terminator
test is `GetNextPageId() == 0`, not `INVALID_PAGE_ID`. -/
def IndexIterator.isEnd (it : IndexIterator) : Bool :=
  it.leaf_page.next_page_id == 0 && it.index == (it.leaf_page.entries.length : Int)

/-- `IndexIterator::operator++` — `++index_`; when it reaches the leaf size
and `GetNextPageId() != 0`, fetch the next leaf and restart at index 0
(`none` models the fetch failing / returning a non-leaf frame, e.g. for
`next_page_id = INVALID_PAGE_ID = -1`). -/
def IndexIterator.inc (it : IndexIterator) : Option IndexIterator :=
  if it.index + 1 = (it.leaf_page.entries.length : Int) ∧
      it.leaf_page.next_page_id ≠ 0 then
    match pgLookup it.pages it.leaf_page.next_page_id with
    | some (BPTPage.leaf l) => some { it with leaf_page := l, index := 0 }
    | _ => none
  else some { it with index := it.index + 1 }

end BPT

/-- C3: on a non-empty tree that already contains the key (the descent
reaches a leaf holding it), `Insert` returns `false` and the returned tree
state is exactly the input state — no entry is added, removed or
modified. -/
theorem insert_duplicate_returns_false_and_preserves_tree :
    ∀ (fuel : Nat) (t : BPT.BPlusTree) (key : Int) (val : BPT.RID)
      (leaf : BPT.LeafNode) (v : BPT.RID),
      t.root_page_id ≠ LRU.INVALID_PAGE_ID →
      BPT.FindLeafPage fuel t key false = some leaf →
      BPT.leafLookup leaf.entries key = some v →
      BPT.Insert fuel t key val = some (false, t) := by
  intro fuel t key val leaf v hroot hfind hlook
  simp [BPT.Insert, BPT.InsertIntoLeaf, hroot, hfind, hlook]

/-- C3 (witness): inserting key 5 again into the one-leaf tree `{5}` returns
`false` and the identical tree. -/
theorem insert_duplicate_returns_false_witness :
    BPT.Insert 2
      (BPT.BPlusTree.mk 1
        [(1, BPT.BPTPage.leaf (BPT.LeafNode.mk 1 (-1) (-1) 3 [(5, {})]))] 2 3 3)
      5 (BPT.RID.mk 9 9) =
    some (false, BPT.BPlusTree.mk 1
      [(1, BPT.BPTPage.leaf (BPT.LeafNode.mk 1 (-1) (-1) 3 [(5, {})]))] 2 3 3) :=
  insert_duplicate_returns_false_and_preserves_tree 2
    (BPT.BPlusTree.mk 1
      [(1, BPT.BPTPage.leaf (BPT.LeafNode.mk 1 (-1) (-1) 3 [(5, {})]))] 2 3 3)
    5 (BPT.RID.mk 9 9) (BPT.LeafNode.mk 1 (-1) (-1) 3 [(5, {})]) {}
    (by decide) (by decide) (by decide)

/-- C9: `GetValue` appends exactly one `RID` to the result vector on every
call that reaches a leaf; when the key is absent it returns `false` and the
appended element is the default-constructed `RID` (the `RID rid;` local that
`Lookup` never assigned). -/
theorem getValue_always_appends_one_rid :
    ∀ (fuel : Nat) (t : BPT.BPlusTree) (key : Int) (result : List BPT.RID),
      (∀ leaf, BPT.FindLeafPage fuel t key false = some leaf →
        BPT.leafLookup leaf.entries key = none →
        BPT.GetValue fuel t key result
          = some (false, result ++ [({} : BPT.RID)])) ∧
      (∀ res, BPT.GetValue fuel t key result = some res →
        res.2.length = result.length + 1) := by
  intro fuel t key result
  constructor
  · intro leaf hfind hmiss
    simp [BPT.GetValue, hfind, hmiss]
  · intro res h
    rcases hf : BPT.FindLeafPage fuel t key false with _ | leaf
    · simp [BPT.GetValue, hf] at h
    · rcases hl : BPT.leafLookup leaf.entries key with _ | v
      · have hres : (false, result ++ [({} : BPT.RID)]) = res := by
          simpa [BPT.GetValue, hf, hl] using h
        rw [← hres]
        simp
      · have hres : (true, result ++ [v]) = res := by
          simpa [BPT.GetValue, hf, hl] using h
        rw [← hres]
        simp

/-- C9 (witness): looking up the absent key 7 in the one-leaf tree `{5}`
returns `false` with exactly the default `RID` appended to the empty result
vector, and the result length grew by one. -/
theorem getValue_always_appends_one_rid_witness :
    BPT.GetValue 2
      (BPT.BPlusTree.mk 1
        [(1, BPT.BPTPage.leaf (BPT.LeafNode.mk 1 (-1) (-1) 3 [(5, {})]))] 2 3 3)
      7 [] = some (false, [({} : BPT.RID)]) ∧
    ((false, [({} : BPT.RID)]) : Bool × List BPT.RID).2.length
      = ([] : List BPT.RID).length + 1 := by
  have h := getValue_always_appends_one_rid 2
    (BPT.BPlusTree.mk 1
      [(1, BPT.BPTPage.leaf (BPT.LeafNode.mk 1 (-1) (-1) 3 [(5, {})]))] 2 3 3)
    7 []
  have h1 := h.1 (BPT.LeafNode.mk 1 (-1) (-1) 3 [(5, {})]) (by decide) (by decide)
  exact ⟨by simpa using h1, h.2 (false, [({} : BPT.RID)]) (by simpa using h1)⟩

/-- C5 (counterexample): an iterator sitting at `index == size` of a
rightmost leaf whose `next_page_id` is `INVALID_PAGE_ID = -1` (the
terminator of the sibling chain) is NOT reported as the end: `isEnd()`
compares `next_page_id` with 0, not with `INVALID_PAGE_ID`, so it returns
`false` here although the claim requires `true`. -/
theorem isEnd_false_on_invalid_terminator :
    (BPT.IndexIterator.mk
      [(1, BPT.BPTPage.leaf (BPT.LeafNode.mk 1 (-1) (-1) 3 [(5, {})]))]
      (BPT.LeafNode.mk 1 (-1) (-1) 3 [(5, {})]) 1).leaf_page.next_page_id
        = LRU.INVALID_PAGE_ID ∧
    (BPT.IndexIterator.mk
      [(1, BPT.BPTPage.leaf (BPT.LeafNode.mk 1 (-1) (-1) 3 [(5, {})]))]
      (BPT.LeafNode.mk 1 (-1) (-1) 3 [(5, {})]) 1).index
        = ((BPT.LeafNode.mk 1 (-1) (-1) 3 [(5, {})]).entries.length : Int) ∧
    (BPT.IndexIterator.mk
      [(1, BPT.BPTPage.leaf (BPT.LeafNode.mk 1 (-1) (-1) 3 [(5, {})]))]
      (BPT.LeafNode.mk 1 (-1) (-1) 3 [(5, {})]) 1).isEnd = false := by
  refine ⟨rfl, rfl, ?_⟩
  decide

/-- C5 (amended): freshly initialised leaves carry the
`INVALID_PAGE_ID = -1` terminator, but the iterator tests against 0:
`isEnd()` is true exactly when `index == size` and `next_page_id == 0`, and
`operator++` running off a leaf whose `next_page_id` is not 0 (including the
`INVALID_PAGE_ID` terminator) moves to index 0 of the page at
`next_page_id`; otherwise it just advances the index. -/
theorem iterator_end_detection_uses_zero :
    ∀ (it : BPT.IndexIterator),
      (it.isEnd = true ↔ (it.leaf_page.next_page_id = 0 ∧
        it.index = (it.leaf_page.entries.length : Int))) ∧
      (∀ l, it.index + 1 = (it.leaf_page.entries.length : Int) →
        it.leaf_page.next_page_id ≠ 0 →
        BPT.pgLookup it.pages it.leaf_page.next_page_id
          = some (BPT.BPTPage.leaf l) →
        it.inc = some { it with leaf_page := l, index := 0 }) ∧
      (¬ (it.index + 1 = (it.leaf_page.entries.length : Int) ∧
          it.leaf_page.next_page_id ≠ 0) →
        it.inc = some { it with index := it.index + 1 }) ∧
      (∀ pid parent ms, (BPT.leafInit pid parent ms).next_page_id
        = LRU.INVALID_PAGE_ID) := by
  intro it
  refine ⟨?_, ?_, ?_, fun _ _ _ => rfl⟩
  · simp [BPT.IndexIterator.isEnd, Bool.and_eq_true, beq_iff_eq]
  · intro l h1 h2 h3
    simp [BPT.IndexIterator.inc, h1, h2, h3]
  · intro h
    simp only [BPT.IndexIterator.inc, if_neg h]

/-- C5 (witness): the iterator at `index == size` of a leaf whose
`next_page_id` is 0 is the end; running off a leaf whose `next_page_id`
points at leaf 2 moves to index 0 of leaf 2. -/
theorem iterator_end_detection_uses_zero_witness :
    (BPT.IndexIterator.mk []
      (BPT.LeafNode.mk 1 (-1) 0 3 [(5, {})]) 1).isEnd = true ∧
    (BPT.IndexIterator.mk
      [(2, BPT.BPTPage.leaf (BPT.LeafNode.mk 2 (-1) 0 3 [(7, {})]))]
      (BPT.LeafNode.mk 1 (-1) 2 3 [(5, {})]) 0).inc =
      some (BPT.IndexIterator.mk
        [(2, BPT.BPTPage.leaf (BPT.LeafNode.mk 2 (-1) 0 3 [(7, {})]))]
        (BPT.LeafNode.mk 2 (-1) 0 3 [(7, {})]) 0) := by
  constructor
  · exact ((iterator_end_detection_uses_zero
      (BPT.IndexIterator.mk []
        (BPT.LeafNode.mk 1 (-1) 0 3 [(5, {})]) 1)).1).mpr (by decide)
  · exact (iterator_end_detection_uses_zero
      (BPT.IndexIterator.mk
        [(2, BPT.BPTPage.leaf (BPT.LeafNode.mk 2 (-1) 0 3 [(7, {})]))]
        (BPT.LeafNode.mk 1 (-1) 2 3 [(5, {})]) 0)).2.1
      (BPT.LeafNode.mk 2 (-1) 0 3 [(7, {})]) (by decide) (by decide) (by decide)
